import Mathlib

/-!
Shallow embedding of `src/million/drivers/useChildren.ts`, the children
reconciliation driver of the million library, together with the small pieces
of its collaborators (`../types`, `../effect`, `../createElement`) that the
driver observably depends on; those collaborator modules are not part of the
sources, so they are modelled from the spec where needed.

Modelling conventions:
- JS arrays become `List`; `arr[i]` / `el.childNodes.item(i)` become `List.get?`
  (`item` returns `null` out of range, modelled as `none`).
- The effect queue is threaded functionally: `queueEffect(kind, action)`
  appends one `(kind, action)` pair to the effect list (in JS the same array
  is mutated in place by `push`).
- Deferred mutation closures are represented as first-order `EffectAction`
  values recording exactly what the closure captured at queue time and which
  lookups it defers to replay time (`insertBeforeIdx`/`insertAfterIdx`/
  `removeIdx` resolve an index at replay time; `insertBeforeRef`/`removeNode`
  captured a concrete node reference at queue time).
- `commit` defaults to synchronous invocation (`(work) => work()`); the model
  uses that default behaviour and carries the caller's commit value through
  to the returned record as an opaque value of type `κ`.
- The recursive dispatch through the `driver` argument
  (`driver!(el, new, old, commit, effects).effects!`) is modelled by an
  abstract function parameter of type `DriverFn`; calling an absent driver
  would throw in JS and is modelled as returning the effect list unchanged.
- JS `Map` (used for the object pool and the key map) is modelled as an
  association list: `set` updates in place or appends, `get` finds, `delete`
  removes, and iteration order is list order (JS Map iterates in insertion
  order, with `set` on an existing key keeping its original position).
- JS truthiness of the `children` value matters (an empty array is truthy,
  an empty string is falsy, `undefined` is falsy) and is modelled explicitly.
-/

namespace Million

/-- Modelled from the spec: the optimization flag enum (`Flags` in the missing
`../types` module): one of DEFAULT, NO_CHILDREN, KEYED_CHILDREN,
TEXT_CHILDREN, emitted by an external compiler. -/
inductive Flags where
  | ELEMENT_DEFAULT
  | ELEMENT_NO_CHILDREN
  | ELEMENT_KEYED_CHILDREN
  | ELEMENT_TEXT_CHILDREN
deriving DecidableEq, Repr

/-- Modelled from the spec: patch operations (`DeltaTypes` in the missing
`../types` module): CREATE, UPDATE or REMOVE. -/
inductive DeltaTypes where
  | CREATE
  | UPDATE
  | REMOVE
deriving DecidableEq, Repr

/-- Modelled from the spec: effect kinds (`EffectTypes` in the missing
`../types` module): CREATE, UPDATE, REMOVE or REPLACE. -/
inductive EffectTypes where
  | CREATE
  | UPDATE
  | REMOVE
  | REPLACE
deriving DecidableEq, Repr

/-- Children of a virtual element: either an ordered list of child nodes or a
scalar string (the TEXT_CHILDREN representation allows `children` to be a
plain string; `useChildren` checks `Array.isArray` on it). -/
inductive VChildrenF (α : Type) where
  | nodes (l : List α)
  | str (s : String)

/-- Modelled from the spec: a node description (`VNode` in the missing
`../types` module) is either a text leaf (a plain string in JS) or an element
(`VElement`) carrying an optional stable key, optional children, an optional
optimization flag and an optional precomputed patch list (`delta`). -/
inductive VNode where
  | vtext (s : String)
  | velem (key : Option String) (children : Option (VChildrenF VNode))
      (flag : Option Flags) (delta : Option (List (DeltaTypes × Nat)))

/-- JS property access `v.key`: `undefined` on a text primitive. -/
def VNode.key : VNode → Option String
  | .vtext _ => none
  | .velem k _ _ _ => k

/-- JS property access `v.children`: `undefined` on a text primitive. -/
def VNode.children : VNode → Option (VChildrenF VNode)
  | .vtext _ => none
  | .velem _ c _ _ => c

/-- JS property access `v.flag`: `undefined` on a text primitive. -/
def VNode.flag : VNode → Option Flags
  | .vtext _ => none
  | .velem _ _ f _ => f

/-- JS property access `v.delta`: `undefined` on a text primitive. -/
def VNode.delta : VNode → Option (List (DeltaTypes × Nat))
  | .vtext _ => none
  | .velem _ _ _ d => d

/-- A concrete host node (`DOMNode`). `real i` is a node already materialized
in the host environment (identified by `i`); `created v` is the result of the
external node factory `createElement(v, false)` applied to the description
`v` (`none` models the unreachable call on an `undefined` description). -/
inductive DomNode where
  | real (id : Nat)
  | created (v : Option VNode)

/-- Modelled from the spec: the external node factory
(`createElement(description, false)` from the missing `../createElement`
module): materializes a host node from a node description. -/
def createElement (v : Option VNode) : DomNode :=
  DomNode.created v

/-- First-order description of the deferred mutation closure queued with an
effect. Constructors record which values the closure captured at queue time
and which child-list lookups it performs only at replay time. -/
inductive EffectAction where
  | insertBeforeRef (node : DomNode) (ref : Option DomNode)
  | insertBeforeIdx (node : Option DomNode) (idx : Nat)
  | insertAfterIdx (node : Option DomNode) (idx : Nat)
  | appendNode (node : DomNode)
  | removeNode (node : Option DomNode)
  | removeIdx (idx : Nat)
  | setText (s : String)

/-- Modelled from the spec: an effect is a deferred unit of host mutation,
tagged with a kind and a zero-argument action (`Effect` in the missing
`../types` module; `queueEffect` from the missing `../effect` module appends
one such pair to the effect sequence). -/
abbrev Effect := EffectTypes × EffectAction

/-- The per-parent object pool (`el[NODE_OBJECT_POOL_FIELD]`): a JS `Map`
from a child key (possibly `undefined`) to the detached host node stored on
removal (`el.childNodes.item(i)` can be `null`, hence the value is an
`Option`). -/
abbrev PoolMap := List (Option String × Option DomNode)

/-- The transient key map (`oldKeyMap`): a JS `Map` from a child key to the
child's original index in the old children list. -/
abbrev KeyMap := List (Option String × Nat)

/-- JS `Map.prototype.set`: update in place if the key exists (keeping its
insertion position), otherwise append. -/
def mapSet {κ α : Type} [DecidableEq κ] : List (κ × α) → κ → α → List (κ × α)
  | [], k, v => [(k, v)]
  | (k0, v0) :: rest, k, v =>
      if k0 = k then (k0, v) :: rest else (k0, v0) :: mapSet rest k v

/-- JS `Map.prototype.get`: `undefined` when absent. -/
def mapGet {κ α : Type} [DecidableEq κ] : List (κ × α) → κ → Option α
  | [], _ => none
  | (k0, v0) :: rest, k => if k0 = k then some v0 else mapGet rest k

/-- JS `Map.prototype.delete`: remove the entry for the key, if present. -/
def mapDelete {κ α : Type} [DecidableEq κ] : List (κ × α) → κ → List (κ × α)
  | [], _ => []
  | (k0, v0) :: rest, k => if k0 = k then rest else (k0, v0) :: mapDelete rest k

/-- The parent host element: its identity, its current child list
(`el.childNodes`, read-only during reconciliation since all mutations are
deferred into effects) and the hidden object-pool field
(`el[NODE_OBJECT_POOL_FIELD]`, absent until the first keyed
reconciliation). -/
structure ParentEl where
  id : Nat
  childNodes : List DomNode
  pool : Option PoolMap

/-- Abstract recursion back into the driver chain:
`driver!(childEl, newChild, oldChild, commit, effects).effects!`. The child
element and either child description can be `undefined`/`null` at the call
site, hence the `Option`s. -/
abbrev DriverFn :=
  Option DomNode → Option VNode → Option VNode → List Effect → List Effect

/-- A downstream driver from the `drivers` array of the factory, invoked by
`finish` with the full reconciliation context; observably it may extend the
effect sequence. -/
abbrev ChainDriver := ParentEl → VNode → Option VNode → List Effect → List Effect

/-- The record returned by the driver
(`{ el, newVNode, oldVNode, effects, commit, driver }`); the caller's commit
function is carried through as an opaque value of type `κ`. -/
structure DriverData (κ : Type) where
  el : ParentEl
  newVNode : VNode
  oldVNode : Option VNode
  effects : List Effect
  commit : κ
  driver : Option DriverFn

/-- JS string coercion used by `Array.prototype.join`: a string child joins
as itself, an element object joins as its default object coercion. -/
def vnodeToString : VNode → String
  | .vtext s => s
  | .velem _ _ _ _ => "[object Object]"

/-- Viewing a `children` value through JS array indexing: a list is itself;
indexing a scalar string yields its one-character substrings (and `.length`
its character count). -/
def vcToList : VChildrenF VNode → List VNode
  | .nodes l => l
  | .str s => s.data.map (fun c => VNode.vtext (String.mk [c]))

/-- JS `.length` of a `children` value (array length or string length). -/
def vcLength (c : VChildrenF VNode) : Nat :=
  (vcToList c).length

/-- JS truthiness of a present `children` value: only the empty string is
falsy (an empty array is truthy). -/
def vcTruthy : VChildrenF VNode → Bool
  | .nodes _ => true
  | .str s => !(s = "")

/-- JS truthiness of `newVNode.children` (`!newVNodeChildren` at line 91):
`undefined` and the empty string are falsy. -/
def childrenTruthy : Option (VChildrenF VNode) → Bool
  | none => false
  | some c => vcTruthy c

/-- Line 50: `const oldVNodeChildren: VNode[] = oldVNode?.children ?? [];`
(the `??` fires on `undefined` only, so a present scalar string is kept). -/
def oldChildrenOf (oldVNode : Option VNode) : VChildrenF VNode :=
  match oldVNode with
  | none => VChildrenF.nodes []
  | some o =>
    match VNode.children o with
    | none => VChildrenF.nodes []
    | some c => c

/-- Line 51: `const newVNodeChildren = newVNode.children;` viewed as a list
(empty when absent; the absent case is only ever indexed on the delta path,
see `deltaRun`). -/
def newChildrenList (newVNode : VNode) : List VNode :=
  match VNode.children newVNode with
  | none => []
  | some c => vcToList c

/-- `(children[i] as VElement).key`: the key of the i-th child description
(`undefined` both for a text child and, unreachably, out of range). -/
def keyAt (l : List VNode) (i : Nat) : Option String :=
  match l.get? i with
  | none => none
  | some v => VNode.key v

/-- Lines 60-86, the delta replayer: iterate the patch list in order; for
CREATE queue an insertion of the materialized new child before the host child
at the patch position; for UPDATE recurse through the driver, merging its
effects; for REMOVE queue a removal of the host child at the patch position.
All positions are resolved against `elChildren`, the host child list as it
was at queue time. -/
def deltaRun (drv : DriverFn) (elChildren : List DomNode) (newCL oldCL : List VNode) :
    List (DeltaTypes × Nat) → List Effect → List Effect
  | [], effs => effs
  | (op, pos) :: rest, effs =>
    let child := elChildren.get? pos
    let effs2 :=
      match op with
      | DeltaTypes.CREATE =>
          effs ++ [(EffectTypes.CREATE,
            EffectAction.insertBeforeRef (createElement (newCL.get? pos)) child)]
      | DeltaTypes.UPDATE => drv child (newCL.get? pos) (oldCL.get? pos) effs
      | DeltaTypes.REMOVE =>
          effs ++ [(EffectTypes.REMOVE, EffectAction.removeNode child)]
    deltaRun drv elChildren newCL oldCL rest effs2

/-- Lines 91-96: new children absent (or falsy) or flag NO_CHILDREN. The
guard `if (!oldVNodeChildren) return finish(el)` skips the effect only when
`oldVNodeChildren` is falsy, i.e. a scalar empty string (line 50 replaces an
absent value by `[]`, which is truthy); otherwise one REMOVE effect clearing
the host's text content is queued. -/
def noChildrenRun (oldVC : VChildrenF VNode) (effs : List Effect) : List Effect :=
  if vcTruthy oldVC then effs ++ [(EffectTypes.REMOVE, EffectAction.setText "")]
  else effs

/-- Lines 98-105 (and the unreachable lines 399-403): old children absent or
empty: queue one CREATE effect appending the materialized child, for each new
child from index `head` on, `n` children in total. -/
def appendPath (newCL : List VNode) : Nat → Nat → List Effect → List Effect
  | _, 0, effs => effs
  | head, n + 1, effs =>
      appendPath newCL (head + 1) n
        (effs ++ [(EffectTypes.CREATE,
          EffectAction.appendNode (createElement (newCL.get? head)))])

/-- Cursor state of the keyed trim loop (lines 264-296). The source keeps
`oldTail`/`newTail` as possibly negative indices; the model keeps
`oldStop = oldTail + 1` and `newStop = newTail + 1` as naturals, so
`oldHead <= oldTail` reads `oldHead < oldStop`. -/
structure TrimState where
  oldHead : Nat
  newHead : Nat
  oldStop : Nat
  newStop : Nat
  effects : List Effect

/-- Lines 269-296, the bidirectional trim loop, with explicit fuel (any fuel
at least `(oldStop - oldHead) + (newStop - newHead)` reaches the fixpoint,
since every iteration shrinks that measure by 2): while both index ranges are
non-empty, try in order: suffix key match (shrink both tails), prefix key
match (advance both heads), right move (queue an insertion of the old head
host node after the replay-time child at the current new tail), left move
(queue an insertion of the old tail host node before the replay-time child at
the current new head); break when none matches. -/
def trimLoop (elC : List DomNode) (oldC newC : List VNode) :
    Nat → TrimState → TrimState
  | 0, s => s
  | fuel + 1, s =>
    if s.oldHead < s.oldStop ∧ s.newHead < s.newStop then
      if keyAt oldC (s.oldStop - 1) = keyAt newC (s.newStop - 1) then
        trimLoop elC oldC newC fuel
          { s with oldStop := s.oldStop - 1, newStop := s.newStop - 1 }
      else if keyAt oldC s.oldHead = keyAt newC s.newHead then
        trimLoop elC oldC newC fuel
          { s with oldHead := s.oldHead + 1, newHead := s.newHead + 1 }
      else if keyAt oldC s.oldHead = keyAt newC (s.newStop - 1) then
        trimLoop elC oldC newC fuel
          { s with oldHead := s.oldHead + 1, newStop := s.newStop - 1,
                   effects := s.effects ++
                     [(EffectTypes.CREATE,
                       EffectAction.insertAfterIdx (elC.get? s.oldHead) (s.newStop - 1))] }
      else if keyAt oldC (s.oldStop - 1) = keyAt newC s.newHead then
        trimLoop elC oldC newC fuel
          { s with oldStop := s.oldStop - 1, newHead := s.newHead + 1,
                   effects := s.effects ++
                     [(EffectTypes.CREATE,
                       EffectAction.insertBeforeIdx (elC.get? (s.oldStop - 1)) s.newHead)] }
      else s
    else s

/-- Lines 298-311, branch [6] (all old children consumed): for each remaining
new child (`n` of them, from index `head` on), consult the object pool for a
cached host node under the child's key (`cachedNode ?? createElement(...)`
falls back to the factory when the pool has no entry or a `null` entry) and
queue a CREATE effect inserting it before the replay-time child at the
child's index. The pool is only read. -/
def insertRemaining (pool : PoolMap) (newC : List VNode) :
    Nat → Nat → List Effect → List Effect
  | _, 0, effs => effs
  | head, n + 1, effs =>
      insertRemaining pool newC (head + 1) n
        (effs ++ [(EffectTypes.CREATE,
          EffectAction.insertBeforeIdx
            (some (((mapGet pool (keyAt newC head)).join).getD
              (createElement (newC.get? head)))) head)])

/-- Lines 312-319, branch [7] (all new children consumed): for each remaining
old child (`n` of them, from index `head` on), store the host child at its
index into the object pool under the child's key, then queue a REMOVE effect
for that node. -/
def removeRemaining (elC : List DomNode) (oldC : List VNode) :
    Nat → Nat → PoolMap → List Effect → PoolMap × List Effect
  | _, 0, pool, effs => (pool, effs)
  | head, n + 1, pool, effs =>
      removeRemaining elC oldC (head + 1) n
        (mapSet pool (keyAt oldC head) (elC.get? head))
        (effs ++ [(EffectTypes.REMOVE, EffectAction.removeNode (elC.get? head))])

/-- Lines 321-326, branch [8]: index the unmatched old range (`n` children
from index `head` on) into a key map from key to original index. -/
def buildKeyMap (oldC : List VNode) : Nat → Nat → KeyMap → KeyMap
  | _, 0, m => m
  | head, n + 1, m => buildKeyMap oldC (head + 1) n (mapSet m (keyAt oldC head) head)

/-- Lines 328-348, branches [9]/[10]: walk the unmatched new range left to
right; when the child's key is in the key map, queue a move of the host child
at its original index to the current position and delete the key from the
map; otherwise consult the object pool under the key (falling back to the
factory) and queue a CREATE insertion at the current position. The pool is
only read. -/
def newWalk (elC : List DomNode) (pool : PoolMap) (newC : List VNode) :
    Nat → Nat → KeyMap → List Effect → KeyMap × List Effect
  | _, 0, km, effs => (km, effs)
  | head, n + 1, km, effs =>
    match mapGet km (keyAt newC head) with
    | some oldIndex =>
        newWalk elC pool newC (head + 1) n (mapDelete km (keyAt newC head))
          (effs ++ [(EffectTypes.CREATE,
            EffectAction.insertBeforeIdx (elC.get? oldIndex) head)])
    | none =>
        newWalk elC pool newC (head + 1) n km
          (effs ++ [(EffectTypes.CREATE,
            EffectAction.insertBeforeIdx
              (some (((mapGet pool (keyAt newC head)).join).getD
                (createElement (newC.get? head)))) head)])

/-- Lines 351-355, branch [11]: every key left in the key map is an old child
absent from the new list: iterating the map in insertion order, store the
host child at its original index into the object pool under the key, then
queue a REMOVE effect for it. -/
def cleanupRemoved (elC : List DomNode) :
    KeyMap → PoolMap → List Effect → PoolMap × List Effect
  | [], pool, effs => (pool, effs)
  | (k, idx) :: rest, pool, effs =>
      cleanupRemoved elC rest (mapSet pool k (elC.get? idx))
        (effs ++ [(EffectTypes.REMOVE, EffectAction.removeNode (elC.get? idx))])

/-- Lines 298-356: the dispatch on the ranges left over by the trim loop
(`oldHead > oldTail` reads `s.oldStop ≤ s.oldHead`): all-old-consumed inserts
the remaining new children (branch [6]), all-new-consumed pools and removes
the remaining old children (branch [7]), otherwise build the key map over the
old remainder (branch [8], the source's `oldKeyMap`), walk the new remainder
(branches [9]/[10]), and pool and remove the leftover keys (branch [11]).
Returns the final pool contents and effect sequence. -/
def keyedBranches (elC : List DomNode) (pool0 : PoolMap) (oldCL newCL : List VNode)
    (s : TrimState) : PoolMap × List Effect :=
  if s.oldStop ≤ s.oldHead then
    (pool0, insertRemaining pool0 newCL s.newHead (s.newStop - s.newHead) s.effects)
  else if s.newStop ≤ s.newHead then
    removeRemaining elC oldCL s.oldHead (s.oldStop - s.oldHead) pool0 s.effects
  else
    cleanupRemoved elC
      (newWalk elC pool0 newCL s.newHead (s.newStop - s.newHead)
        (buildKeyMap oldCL s.oldHead (s.oldStop - s.oldHead) []) s.effects).1
      pool0
      (newWalk elC pool0 newCL s.newHead (s.newStop - s.newHead)
        (buildKeyMap oldCL s.oldHead (s.oldStop - s.oldHead) []) s.effects).2

/-- Lines 261-358, the keyed reconciler: lazily initialize the object pool
(line 262), run the trim loop from full ranges, dispatch on the remaining
ranges, and write the updated pool back to the hidden field of the parent. -/
def keyedPath (el : ParentEl) (oldCL newCL : List VNode) (effs : List Effect) :
    ParentEl × List Effect :=
  let r := keyedBranches el.childNodes (el.pool.getD []) oldCL newCL
    (trimLoop el.childNodes oldCL newCL (oldCL.length + newCL.length)
      ⟨0, 0, oldCL.length, newCL.length, effs⟩)
  ({ el with pool := some r.1 }, r.2)

/-- Lines 362-367: flatten a raw `children` value to the compared string:
join a list with the empty separator, keep a scalar string as is, keep
`undefined` as `undefined`. -/
def flattenChildren : Option (VChildrenF VNode) → Option String
  | none => none
  | some (VChildrenF.str s) => some s
  | some (VChildrenF.nodes l) => some ((l.map vnodeToString).foldl (· ++ ·) "")

/-- Lines 361-372, the TEXT_CHILDREN path: flatten the raw old and new
children (note: the raw `oldVNode?.children`, not the defaulted array) and
queue one REPLACE effect setting the host's text content to the new string
exactly when the two differ (exact string comparison). -/
def textPathRun (oldCh newCh : Option (VChildrenF VNode)) (effs : List Effect) :
    List Effect :=
  let oldString := flattenChildren oldCh
  let newString := flattenChildren newCh
  if oldString ≠ newString then
    effs ++ [(EffectTypes.REPLACE, EffectAction.setText (newString.getD ""))]
  else effs

/-- Lines 379-387: recurse through the driver on the common-length prefix
index by index in decreasing index order, threading the effect list
(`unkeyedCommon ... n` processes indices `n-1, n-2, ..., 0`). Each child call
receives the replay-stable snapshot child `el.childNodes.item(i)`. -/
def unkeyedCommon (drv : DriverFn) (elC : List DomNode) (newCL oldCL : List VNode) :
    Nat → List Effect → List Effect
  | 0, effs => effs
  | i + 1, effs =>
      unkeyedCommon drv elC newCL oldCL i
        (drv (elC.get? i) (newCL.get? i) (oldCL.get? i) effs)

/-- Lines 395-397: queue one REMOVE effect per extra old child, resolved by
index at replay time, in decreasing index order (`unkeyedRemove lo n`
processes indices `lo+n-1, ..., lo`). -/
def unkeyedRemove (lo : Nat) : Nat → List Effect → List Effect
  | 0, effs => effs
  | n + 1, effs =>
      unkeyedRemove lo n (effs ++ [(EffectTypes.REMOVE, EffectAction.removeIdx (lo + n))])

/-- Lines 374-398, the generic unkeyed path: recurse on the common prefix in
reverse order, then append the extra new children in forward order or remove
the extra old children in reverse order. -/
def unkeyedPath (drv : DriverFn) (elC : List DomNode) (newCL oldCL : List VNode)
    (effs : List Effect) : List Effect :=
  let common := min oldCL.length newCL.length
  let e1 := unkeyedCommon drv elC newCL oldCL common effs
  if oldCL.length < newCL.length then
    appendPath newCL common (newCL.length - common) e1
  else if newCL.length < oldCL.length then
    unkeyedRemove common (oldCL.length - common) e1
  else e1

/-- Which reconciliation path a call runs. -/
inductive RPath where
  | delta
  | noChildren
  | appendOnly
  | keyed
  | textChildren
  | unkeyed
deriving DecidableEq, Repr

/-- The dispatch structure of `useChildren` (the sequence of early-returning
`if`s at lines 60, 91, 98, 261, 361, 374): explicit patch list first, then
the absent-children/NO_CHILDREN block, then the append-only block (old
children falsy or empty), then KEYED_CHILDREN, then TEXT_CHILDREN, then the
generic unkeyed path. -/
def dispatchPath (newVNode : VNode) (oldVNode : Option VNode) : RPath :=
  if (VNode.delta newVNode).isSome then RPath.delta
  else if childrenTruthy (VNode.children newVNode) = false ∨
      VNode.flag newVNode = some Flags.ELEMENT_NO_CHILDREN then RPath.noChildren
  else if vcTruthy (oldChildrenOf oldVNode) = false ∨
      vcLength (oldChildrenOf oldVNode) = 0 then RPath.appendOnly
  else if VNode.flag newVNode = some Flags.ELEMENT_KEYED_CHILDREN then RPath.keyed
  else if VNode.flag newVNode = some Flags.ELEMENT_TEXT_CHILDREN then RPath.textChildren
  else RPath.unkeyed

/-- Lines 40-48: `finish` invokes every downstream driver from the factory's
`drivers` array, under the (default synchronous) commit, each one observably
extending the effect sequence in turn. -/
def finishDrivers (drivers : List ChainDriver) (el : ParentEl) (newVNode : VNode)
    (oldVNode : Option VNode) (effs : List Effect) : List Effect :=
  drivers.foldl (fun e d => d el newVNode oldVNode e) effs

/-- Lines 53-54: `const diff = (el, newVNode, oldVNode) => driver!(el,
newVNode, oldVNode, commit, effects).effects!` — recursion through the
supplied driver; an absent driver would throw at the call site in JS,
modelled as returning the effect list unchanged. -/
def drvOf (driver : Option DriverFn) : DriverFn := fun c n o e =>
  match driver with
  | some f => f c n o e
  | none => e

/-- Lines 20-407, the `useChildren` driver: run exactly one reconciliation
path according to `dispatchPath`, invoke the downstream drivers, and return
the `{ el, newVNode, oldVNode, effects, commit, driver }` record. Only the
keyed path touches the parent element, and only its hidden pool field. -/
def useChildren {κ : Type} (drivers : List ChainDriver) (el : ParentEl)
    (newVNode : VNode) (oldVNode : Option VNode) (commit : κ)
    (effects : List Effect) (driver : Option DriverFn) : DriverData κ :=
  let drv : DriverFn := drvOf driver
  let oldVC := oldChildrenOf oldVNode
  let oldCL := vcToList oldVC
  let newCL := newChildrenList newVNode
  let step : ParentEl × List Effect :=
    match dispatchPath newVNode oldVNode with
    | RPath.delta =>
        (el, deltaRun drv el.childNodes newCL oldCL
          ((VNode.delta newVNode).getD []) effects)
    | RPath.noChildren => (el, noChildrenRun oldVC effects)
    | RPath.appendOnly => (el, appendPath newCL 0 newCL.length effects)
    | RPath.keyed => keyedPath el oldCL newCL effects
    | RPath.textChildren =>
        (el, textPathRun (oldVNode.bind VNode.children) (VNode.children newVNode) effects)
    | RPath.unkeyed => (el, unkeyedPath drv el.childNodes newCL oldCL effects)
  { el := step.1, newVNode := newVNode, oldVNode := oldVNode,
    effects := finishDrivers drivers step.1 newVNode oldVNode step.2,
    commit := commit, driver := driver }

/-! ### Spec-side formulations

The definitions below restate what the spec claims the code does, in the
spec's own terms (maps over index ranges, a left fold over the patch list);
the theorems relate them to the executable embedding above. -/

/-- The CREATE effect the spec says branch [6]/[10] queues for the new child
at index `i`: consult the object pool under the child's key, fall back to
the node factory, insert before the replay-time child at `i`. -/
def insEffOf (pool : PoolMap) (newC : List VNode) (i : Nat) : Effect :=
  (EffectTypes.CREATE,
    EffectAction.insertBeforeIdx
      (some (((mapGet pool (keyAt newC i)).join).getD (createElement (newC.get? i)))) i)

/-- The REMOVE effect the spec says a keyed removal queues for the old child
at index `i`: remove the queue-time host child at that index. -/
def remEffOf (elC : List DomNode) (i : Nat) : Effect :=
  (EffectTypes.REMOVE, EffectAction.removeNode (elC.get? i))

/-- The pool writes the spec says branch [7] performs: one
(key of old child at `i`, host child at `i`) pair per removed index. -/
def removalPairs (elC : List DomNode) (oldC : List VNode) (head n : Nat) :
    List (Option String × Option DomNode) :=
  (List.range' head n).map (fun i => (keyAt oldC i, elC.get? i))

/-- Apply a sequence of `Map.set` writes to a pool, in order. -/
def poolWritesApply (pool : PoolMap) (ws : List (Option String × Option DomNode)) :
    PoolMap :=
  ws.foldl (fun m kv => mapSet m kv.1 kv.2) pool

/-- One step of the delta replayer as the spec words it (section 4.2):
CREATE materializes the new child at the patch position and inserts it before
the snapshot child there; UPDATE recurses through the driver, merging its
effect sequence; REMOVE deletes the snapshot child there. -/
def deltaStep (drv : DriverFn) (snapshot : List DomNode) (newCL oldCL : List VNode)
    (effs : List Effect) : DeltaTypes × Nat → List Effect
  | (DeltaTypes.CREATE, pos) =>
      effs ++ [(EffectTypes.CREATE,
        EffectAction.insertBeforeRef (createElement (newCL.get? pos)) (snapshot.get? pos))]
  | (DeltaTypes.UPDATE, pos) => drv (snapshot.get? pos) (newCL.get? pos) (oldCL.get? pos) effs
  | (DeltaTypes.REMOVE, pos) =>
      effs ++ [(EffectTypes.REMOVE, EffectAction.removeNode (snapshot.get? pos))]

/-- The delta replayer as the spec words it: a left fold of `deltaStep` over
the patch list, in list order, every position resolved against the one
queue-time snapshot of the host child list. -/
def deltaReplaySpec (drv : DriverFn) (snapshot : List DomNode) (newCL oldCL : List VNode)
    (ds : List (DeltaTypes × Nat)) (effs : List Effect) : List Effect :=
  ds.foldl (deltaStep drv snapshot newCL oldCL) effs

/-- The fast-path tier of the claimed dispatch precedence: the new node's
children are absent/falsy, or the flag is NO_CHILDREN or TEXT_CHILDREN, or
the old children are falsy or empty (the append-only case). -/
def fastPathApplies (newVNode : VNode) (oldVNode : Option VNode) : Prop :=
  childrenTruthy (VNode.children newVNode) = false ∨
  VNode.flag newVNode = some Flags.ELEMENT_NO_CHILDREN ∨
  VNode.flag newVNode = some Flags.ELEMENT_TEXT_CHILDREN ∨
  vcTruthy (oldChildrenOf oldVNode) = false ∨
  vcLength (oldChildrenOf oldVNode) = 0

/-! ### Concrete instances used by witnesses and counterexamples -/

/-- A sample parent element with two already-materialized host children and
no object pool yet. -/
def elEx : ParentEl := ⟨0, [DomNode.real 0, DomNode.real 1], none⟩

/-- A keyed element child with no children of its own. -/
def kel (k : String) : VNode := VNode.velem (some k) none none none

/-- An identity driver: it queues nothing. -/
def drvId : DriverFn := fun _ _ _ e => e

/-- A node carrying a precomputed patch list (and children equal to
themselves between renders). -/
def nDeltaEx : VNode :=
  VNode.velem none (some (VChildrenF.nodes [VNode.vtext "x"])) none
    (some [(DeltaTypes.CREATE, 0)])

/-- A new node with the NO_CHILDREN flag and no children. -/
def noKidsNew : VNode := VNode.velem none none (some Flags.ELEMENT_NO_CHILDREN) none

/-- An old node with no children at all. -/
def noKidsOld : VNode := VNode.velem none none none none

/-- Keyed pass 1, old side: children keyed `a`, `k`. -/
def oldPass1 : VNode :=
  VNode.velem none (some (VChildrenF.nodes [kel "a", kel "k"]))
    (some Flags.ELEMENT_KEYED_CHILDREN) none

/-- Keyed pass 1, new side: child `k` removed. -/
def newPass1 : VNode :=
  VNode.velem none (some (VChildrenF.nodes [kel "a"]))
    (some Flags.ELEMENT_KEYED_CHILDREN) none

/-- Keyed pass 2, new side: child `k` re-inserted. -/
def newPass2 : VNode :=
  VNode.velem none (some (VChildrenF.nodes [kel "a", kel "k"]))
    (some Flags.ELEMENT_KEYED_CHILDREN) none

/-- The parent element after pass 1 (removing keyed child `k` pools its host
node under key `k`). -/
def el1Ex : ParentEl := (useChildren [] elEx newPass1 (some oldPass1) (0 : Nat) [] none).el

/-- An unkeyed new node with two text children. -/
def unkeyedNewEx : VNode :=
  VNode.velem none (some (VChildrenF.nodes [VNode.vtext "a", VNode.vtext "b"])) none none

/-- An unkeyed old node with one text child. -/
def unkeyedOldEx : VNode :=
  VNode.velem none (some (VChildrenF.nodes [VNode.vtext "c"])) none none

/-- A TEXT_CHILDREN new node flattening to "ab". -/
def textNewEx : VNode :=
  VNode.velem none (some (VChildrenF.nodes [VNode.vtext "a", VNode.vtext "b"]))
    (some Flags.ELEMENT_TEXT_CHILDREN) none

/-- An old node with scalar string children "x". -/
def textOldEx : VNode :=
  VNode.velem none (some (VChildrenF.str "x")) none none

/-- A plain unkeyed node with one text child (for the idempotence witness). -/
def plainAEx : VNode :=
  VNode.velem none (some (VChildrenF.nodes [VNode.vtext "a"])) none none

/-! ### Helper lemmas about the loop subroutines -/

theorem insertRemaining_spec (pool : PoolMap) (newC : List VNode) :
    ∀ (n head : Nat) (effs : List Effect),
      insertRemaining pool newC head n effs =
        effs ++ (List.range' head n).map (insEffOf pool newC) := by
  intro n
  induction n with
  | zero => intro head effs; simp [insertRemaining]
  | succ n ih =>
      intro head effs
      rw [insertRemaining, ih, List.range'_succ]
      simp [insEffOf]

theorem removeRemaining_spec (elC : List DomNode) (oldC : List VNode) :
    ∀ (n head : Nat) (pool : PoolMap) (effs : List Effect),
      removeRemaining elC oldC head n pool effs =
        (poolWritesApply pool (removalPairs elC oldC head n),
         effs ++ (List.range' head n).map (remEffOf elC)) := by
  intro n
  induction n with
  | zero => intro head pool effs; simp [removeRemaining, poolWritesApply, removalPairs]
  | succ n ih =>
      intro head pool effs
      rw [removeRemaining, ih]
      simp [poolWritesApply, removalPairs, remEffOf, List.range'_succ]

theorem cleanupRemoved_spec (elC : List DomNode) :
    ∀ (km : KeyMap) (pool : PoolMap) (effs : List Effect),
      cleanupRemoved elC km pool effs =
        (poolWritesApply pool (km.map (fun kv => (kv.1, elC.get? kv.2))),
         effs ++ km.map (fun kv => remEffOf elC kv.2)) := by
  intro km
  induction km with
  | nil => intro pool effs; simp [cleanupRemoved, poolWritesApply]
  | cons kv rest ih =>
      intro pool effs
      rw [cleanupRemoved, ih]
      simp [poolWritesApply, remEffOf]

theorem appendPath_spec (newCL : List VNode) :
    ∀ (n head : Nat) (effs : List Effect),
      appendPath newCL head n effs =
        effs ++ (List.range' head n).map
          (fun i => (EffectTypes.CREATE,
            EffectAction.appendNode (createElement (newCL.get? i)))) := by
  intro n
  induction n with
  | zero => intro head effs; simp [appendPath]
  | succ n ih =>
      intro head effs
      rw [appendPath, ih, List.range'_succ]
      simp

theorem unkeyedRemove_spec (lo : Nat) :
    ∀ (n : Nat) (effs : List Effect),
      unkeyedRemove lo n effs =
        effs ++ ((List.range' lo n).reverse).map
          (fun i => (EffectTypes.REMOVE, EffectAction.removeIdx i)) := by
  intro n
  induction n with
  | zero => intro effs; simp [unkeyedRemove]
  | succ n ih =>
      intro effs
      rw [unkeyedRemove, ih, List.range'_1_concat]
      simp

theorem unkeyedCommon_eq_foldl (drv : DriverFn) (elC : List DomNode)
    (newCL oldCL : List VNode) :
    ∀ (n : Nat) (effs : List Effect),
      unkeyedCommon drv elC newCL oldCL n effs =
        ((List.range n).reverse).foldl
          (fun e i => drv (elC.get? i) (newCL.get? i) (oldCL.get? i) e) effs := by
  intro n
  induction n with
  | zero => intro effs; simp [unkeyedCommon]
  | succ n ih =>
      intro effs
      rw [unkeyedCommon, ih, List.range_succ]
      simp

theorem deltaRun_eq_spec (drv : DriverFn) (elC : List DomNode) (newCL oldCL : List VNode) :
    ∀ (ds : List (DeltaTypes × Nat)) (effs : List Effect),
      deltaRun drv elC newCL oldCL ds effs = deltaReplaySpec drv elC newCL oldCL ds effs := by
  intro ds
  induction ds with
  | nil => intro effs; simp [deltaRun, deltaReplaySpec]
  | cons d rest ih =>
      intro effs
      obtain ⟨op, pos⟩ := d
      rw [deltaRun.eq_def]
      cases op <;> simp [ih, deltaReplaySpec, deltaStep]

theorem trimLoop_effects_extend (elC : List DomNode) (oldC newC : List VNode) :
    ∀ (fuel : Nat) (s : TrimState),
      ∃ t, (trimLoop elC oldC newC fuel s).effects = s.effects ++ t := by
  intro fuel
  induction fuel with
  | zero => intro s; exact ⟨[], by simp [trimLoop]⟩
  | succ fuel ih =>
      intro s
      rw [trimLoop]
      split
      · split
        · exact ih _
        · split
          · exact ih _
          · split
            · exact ⟨_, ((ih _).choose_spec).trans (List.append_assoc _ _ _)⟩
            · split
              · exact ⟨_, ((ih _).choose_spec).trans (List.append_assoc _ _ _)⟩
              · exact ⟨[], by simp⟩
      · exact ⟨[], by simp⟩

theorem trimLoop_equal_lists (elC : List DomNode) (l : List VNode) :
    ∀ (fuel k : Nat) (effs : List Effect), k ≤ fuel →
      trimLoop elC l l fuel ⟨0, 0, k, k, effs⟩ = ⟨0, 0, 0, 0, effs⟩ := by
  intro fuel
  induction fuel with
  | zero =>
      intro k effs hk
      have hk0 : k = 0 := Nat.le_zero.mp hk
      subst hk0
      simp [trimLoop]
  | succ fuel ih =>
      intro k effs hk
      match k with
      | 0 => rw [trimLoop]; simp
      | k + 1 =>
          rw [trimLoop]
          rw [if_pos ⟨Nat.succ_pos k, Nat.succ_pos k⟩, if_pos rfl]
          exact ih k effs (Nat.le_of_succ_le_succ hk)

theorem newWalk_effects_extend (elC : List DomNode) (pool : PoolMap) (newC : List VNode) :
    ∀ (n head : Nat) (km : KeyMap) (effs : List Effect),
      ∃ t, (newWalk elC pool newC head n km effs).2 = effs ++ t := by
  intro n
  induction n with
  | zero => intro head km effs; exact ⟨[], by simp [newWalk]⟩
  | succ n ih =>
      intro head km effs
      rw [newWalk]
      split
      · exact ⟨_, ((ih _ _ _).choose_spec).trans (List.append_assoc _ _ _)⟩
      · exact ⟨_, ((ih _ _ _).choose_spec).trans (List.append_assoc _ _ _)⟩

theorem newWalk_step_miss (elC : List DomNode) (pool : PoolMap) (newC : List VNode)
    (head n : Nat) (km : KeyMap) (effs : List Effect)
    (h : mapGet km (keyAt newC head) = none) :
    newWalk elC pool newC head (n + 1) km effs =
      newWalk elC pool newC (head + 1) n km (effs ++ [insEffOf pool newC head]) := by
  rw [newWalk, h]
  rfl

theorem newWalk_step_hit (elC : List DomNode) (pool : PoolMap) (newC : List VNode)
    (head n : Nat) (km : KeyMap) (effs : List Effect) (oi : Nat)
    (h : mapGet km (keyAt newC head) = some oi) :
    newWalk elC pool newC head (n + 1) km effs =
      newWalk elC pool newC (head + 1) n (mapDelete km (keyAt newC head))
        (effs ++ [(EffectTypes.CREATE, EffectAction.insertBeforeIdx (elC.get? oi) head)]) := by
  rw [newWalk, h]

theorem deltaReplaySpec_effects_extend (drv : DriverFn)
    (hdrv : ∀ c n o e, ∃ t, drv c n o e = e ++ t)
    (elC : List DomNode) (newCL oldCL : List VNode) :
    ∀ (ds : List (DeltaTypes × Nat)) (effs : List Effect),
      ∃ t, deltaReplaySpec drv elC newCL oldCL ds effs = effs ++ t := by
  intro ds
  induction ds with
  | nil => intro effs; exact ⟨[], by simp [deltaReplaySpec]⟩
  | cons d rest ih =>
      intro effs
      obtain ⟨op, pos⟩ := d
      have hstep : ∃ t1, deltaStep drv elC newCL oldCL effs (op, pos) = effs ++ t1 := by
        cases op
        · exact ⟨_, rfl⟩
        · exact hdrv _ _ _ _
        · exact ⟨_, rfl⟩
      obtain ⟨t1, ht1⟩ := hstep
      obtain ⟨t2, ht2⟩ := ih (deltaStep drv elC newCL oldCL effs (op, pos))
      refine ⟨t1 ++ t2, ?_⟩
      simp only [deltaReplaySpec, List.foldl_cons] at ht2 ⊢
      rw [ht2, ht1, List.append_assoc]

theorem unkeyedCommon_effects_extend (drv : DriverFn)
    (hdrv : ∀ c n o e, ∃ t, drv c n o e = e ++ t)
    (elC : List DomNode) (newCL oldCL : List VNode) :
    ∀ (n : Nat) (effs : List Effect),
      ∃ t, unkeyedCommon drv elC newCL oldCL n effs = effs ++ t := by
  intro n
  induction n with
  | zero => intro effs; exact ⟨[], by simp [unkeyedCommon]⟩
  | succ n ih =>
      intro effs
      obtain ⟨t1, ht1⟩ := hdrv (elC.get? n) (newCL.get? n) (oldCL.get? n) effs
      obtain ⟨t2, ht2⟩ := ih (drv (elC.get? n) (newCL.get? n) (oldCL.get? n) effs)
      refine ⟨t1 ++ t2, ?_⟩
      rw [unkeyedCommon, ht2, ht1, List.append_assoc]

theorem unkeyedCommon_equal_lists (drv : DriverFn)
    (hdrv : ∀ c v e, drv c v v e = e) (elC : List DomNode) (l : List VNode) :
    ∀ (n : Nat) (effs : List Effect), unkeyedCommon drv elC l l n effs = effs := by
  intro n
  induction n with
  | zero => intro effs; simp [unkeyedCommon]
  | succ n ih =>
      intro effs
      rw [unkeyedCommon, hdrv]
      exact ih effs

theorem keyedBranches_effects_extend (elC : List DomNode) (pool0 : PoolMap)
    (oldCL newCL : List VNode) (s : TrimState) :
    ∃ t, (keyedBranches elC pool0 oldCL newCL s).2 = s.effects ++ t := by
  unfold keyedBranches
  split_ifs
  · rw [insertRemaining_spec]
    exact ⟨_, rfl⟩
  · rw [removeRemaining_spec]
    exact ⟨_, rfl⟩
  · rw [cleanupRemoved_spec]
    obtain ⟨t1, ht1⟩ := newWalk_effects_extend elC pool0 newCL
      (s.newStop - s.newHead) s.newHead
      (buildKeyMap oldCL s.oldHead (s.oldStop - s.oldHead) []) s.effects
    rw [ht1]
    exact ⟨_, List.append_assoc _ _ _⟩

theorem keyedBranches_pool_writes (elC : List DomNode) (pool0 : PoolMap)
    (oldCL newCL : List VNode) (s : TrimState) :
    ∃ w, (keyedBranches elC pool0 oldCL newCL s).1 = poolWritesApply pool0 w := by
  unfold keyedBranches
  split_ifs
  · exact ⟨[], rfl⟩
  · rw [removeRemaining_spec]
    exact ⟨_, rfl⟩
  · rw [cleanupRemoved_spec]
    exact ⟨_, rfl⟩

theorem keyedPath_effects_extend (el : ParentEl) (oldCL newCL : List VNode)
    (effs : List Effect) :
    ∃ t, (keyedPath el oldCL newCL effs).2 = effs ++ t := by
  obtain ⟨t0, ht0⟩ := trimLoop_effects_extend el.childNodes oldCL newCL
    (oldCL.length + newCL.length) ⟨0, 0, oldCL.length, newCL.length, effs⟩
  obtain ⟨t1, ht1⟩ := keyedBranches_effects_extend el.childNodes (el.pool.getD [])
    oldCL newCL
    (trimLoop el.childNodes oldCL newCL (oldCL.length + newCL.length)
      ⟨0, 0, oldCL.length, newCL.length, effs⟩)
  refine ⟨t0 ++ t1, ?_⟩
  show (keyedBranches el.childNodes (el.pool.getD []) oldCL newCL
    (trimLoop el.childNodes oldCL newCL (oldCL.length + newCL.length)
      ⟨0, 0, oldCL.length, newCL.length, effs⟩)).2 = effs ++ (t0 ++ t1)
  rw [ht1, ht0]
  exact List.append_assoc _ _ _

theorem keyedPath_pool_writes (el : ParentEl) (oldCL newCL : List VNode)
    (effs : List Effect) :
    ∃ w, ((keyedPath el oldCL newCL effs).1).pool =
      some (poolWritesApply (el.pool.getD []) w) := by
  obtain ⟨w, hw⟩ := keyedBranches_pool_writes el.childNodes (el.pool.getD [])
    oldCL newCL
    (trimLoop el.childNodes oldCL newCL (oldCL.length + newCL.length)
      ⟨0, 0, oldCL.length, newCL.length, effs⟩)
  exact ⟨w, congrArg some hw⟩

theorem keyedPath_el_frame (el : ParentEl) (oldCL newCL : List VNode)
    (effs : List Effect) :
    ((keyedPath el oldCL newCL effs).1).id = el.id ∧
    ((keyedPath el oldCL newCL effs).1).childNodes = el.childNodes :=
  ⟨rfl, rfl⟩

/-! ### Reduction of `useChildren` (with no downstream drivers) to its paths -/

theorem useChildren_nil_delta {κ : Type} (el : ParentEl) (newVNode : VNode)
    (oldVNode : Option VNode) (ct : κ) (effs : List Effect) (driver : Option DriverFn)
    (h : dispatchPath newVNode oldVNode = RPath.delta) :
    useChildren [] el newVNode oldVNode ct effs driver =
      { el := el, newVNode := newVNode, oldVNode := oldVNode,
        effects := deltaRun (drvOf driver) el.childNodes (newChildrenList newVNode)
          (vcToList (oldChildrenOf oldVNode)) ((VNode.delta newVNode).getD []) effs,
        commit := ct, driver := driver } := by
  simp [useChildren, h, finishDrivers]

theorem useChildren_nil_noChildren {κ : Type} (el : ParentEl) (newVNode : VNode)
    (oldVNode : Option VNode) (ct : κ) (effs : List Effect) (driver : Option DriverFn)
    (h : dispatchPath newVNode oldVNode = RPath.noChildren) :
    useChildren [] el newVNode oldVNode ct effs driver =
      { el := el, newVNode := newVNode, oldVNode := oldVNode,
        effects := noChildrenRun (oldChildrenOf oldVNode) effs,
        commit := ct, driver := driver } := by
  simp [useChildren, h, finishDrivers]

theorem useChildren_nil_appendOnly {κ : Type} (el : ParentEl) (newVNode : VNode)
    (oldVNode : Option VNode) (ct : κ) (effs : List Effect) (driver : Option DriverFn)
    (h : dispatchPath newVNode oldVNode = RPath.appendOnly) :
    useChildren [] el newVNode oldVNode ct effs driver =
      { el := el, newVNode := newVNode, oldVNode := oldVNode,
        effects := appendPath (newChildrenList newVNode) 0
          (newChildrenList newVNode).length effs,
        commit := ct, driver := driver } := by
  simp [useChildren, h, finishDrivers]

theorem useChildren_nil_keyed {κ : Type} (el : ParentEl) (newVNode : VNode)
    (oldVNode : Option VNode) (ct : κ) (effs : List Effect) (driver : Option DriverFn)
    (h : dispatchPath newVNode oldVNode = RPath.keyed) :
    useChildren [] el newVNode oldVNode ct effs driver =
      { el := (keyedPath el (vcToList (oldChildrenOf oldVNode))
            (newChildrenList newVNode) effs).1,
        newVNode := newVNode, oldVNode := oldVNode,
        effects := (keyedPath el (vcToList (oldChildrenOf oldVNode))
            (newChildrenList newVNode) effs).2,
        commit := ct, driver := driver } := by
  simp [useChildren, h, finishDrivers]

theorem useChildren_nil_text {κ : Type} (el : ParentEl) (newVNode : VNode)
    (oldVNode : Option VNode) (ct : κ) (effs : List Effect) (driver : Option DriverFn)
    (h : dispatchPath newVNode oldVNode = RPath.textChildren) :
    useChildren [] el newVNode oldVNode ct effs driver =
      { el := el, newVNode := newVNode, oldVNode := oldVNode,
        effects := textPathRun (oldVNode.bind VNode.children) (VNode.children newVNode) effs,
        commit := ct, driver := driver } := by
  simp [useChildren, h, finishDrivers]

theorem useChildren_nil_unkeyed {κ : Type} (el : ParentEl) (newVNode : VNode)
    (oldVNode : Option VNode) (ct : κ) (effs : List Effect) (driver : Option DriverFn)
    (h : dispatchPath newVNode oldVNode = RPath.unkeyed) :
    useChildren [] el newVNode oldVNode ct effs driver =
      { el := el, newVNode := newVNode, oldVNode := oldVNode,
        effects := unkeyedPath (drvOf driver) el.childNodes (newChildrenList newVNode)
          (vcToList (oldChildrenOf oldVNode)) effs,
        commit := ct, driver := driver } := by
  simp [useChildren, h, finishDrivers]

/-! ### Claim theorems -/

/-- C2: exactly one reconciliation path runs per call, with the claimed
precedence: a present patch list always dispatches to the delta replayer;
otherwise if one of the fast paths (absent children/NO_CHILDREN,
TEXT_CHILDREN, append-only) applies, one of them is the dispatched path;
otherwise KEYED_CHILDREN dispatches to the keyed reconciler; otherwise the
generic unkeyed path runs. -/
theorem c2_dispatch_precedence (newVNode : VNode) (oldVNode : Option VNode) :
    ((VNode.delta newVNode).isSome = true → dispatchPath newVNode oldVNode = RPath.delta) ∧
    (VNode.delta newVNode = none → fastPathApplies newVNode oldVNode →
      (dispatchPath newVNode oldVNode = RPath.noChildren ∨
       dispatchPath newVNode oldVNode = RPath.textChildren ∨
       dispatchPath newVNode oldVNode = RPath.appendOnly)) ∧
    (VNode.delta newVNode = none → ¬fastPathApplies newVNode oldVNode →
      VNode.flag newVNode = some Flags.ELEMENT_KEYED_CHILDREN →
      dispatchPath newVNode oldVNode = RPath.keyed) ∧
    (VNode.delta newVNode = none → ¬fastPathApplies newVNode oldVNode →
      VNode.flag newVNode ≠ some Flags.ELEMENT_KEYED_CHILDREN →
      dispatchPath newVNode oldVNode = RPath.unkeyed) := by
  refine ⟨?_, ?_, ?_, ?_⟩
  · intro h
    unfold dispatchPath
    simp [h]
  · intro hd hf
    unfold dispatchPath
    have h1 : (VNode.delta newVNode).isSome = false := by simp [hd]
    by_cases h2 : childrenTruthy (VNode.children newVNode) = false ∨
        VNode.flag newVNode = some Flags.ELEMENT_NO_CHILDREN
    · simp [h1, h2]
    · by_cases h3 : vcTruthy (oldChildrenOf oldVNode) = false ∨
          vcLength (oldChildrenOf oldVNode) = 0
      · simp [h1, h2, h3]
      · have h4 : VNode.flag newVNode = some Flags.ELEMENT_TEXT_CHILDREN := by
          rcases hf with h | h | h | h | h
          · exact absurd (Or.inl h) h2
          · exact absurd (Or.inr h) h2
          · exact h
          · exact absurd (Or.inl h) h3
          · exact absurd (Or.inr h) h3
        have h5 : VNode.flag newVNode ≠ some Flags.ELEMENT_KEYED_CHILDREN := by
          rw [h4]; simp
        push_neg at h2 h3
        obtain ⟨h2a, h2b⟩ := h2
        obtain ⟨h3a, h3b⟩ := h3
        simp [h1, h2a, h2b, h3a, h3b, h4, h5]
  · intro hd hnf hk
    unfold dispatchPath
    unfold fastPathApplies at hnf
    push_neg at hnf
    obtain ⟨h1, h2, h3, h4, h5⟩ := hnf
    simp [hd, h1, h2, h4, h5, hk]
  · intro hd hnf hk
    unfold dispatchPath
    unfold fastPathApplies at hnf
    push_neg at hnf
    obtain ⟨h1, h2, h3, h4, h5⟩ := hnf
    simp [hd, h1, h2, h3, h4, h5, hk]

/-- C2 witness: a node with a patch list dispatches to the delta path. -/
theorem c2_witness : dispatchPath nDeltaEx (some nDeltaEx) = RPath.delta :=
  (c2_dispatch_precedence nDeltaEx (some nDeltaEx)).1 rfl

/-- C3 (code bug evidence): with a new node whose children are absent (flag
NO_CHILDREN) and an old node that had no children either, the code still
queues one REMOVE effect clearing the host's text content, because line 50
(`oldVNode?.children ?? []`) makes the guard `if (!oldVNodeChildren)` at
line 92 unsatisfiable for absent children (an empty array is truthy). The
claim (and the dead guard's evident intent) says this case is a no-op. -/
theorem c3_nochildren_bug :
    (useChildren [] elEx noKidsNew (some noKidsOld) (0 : Nat) [] none).effects =
      [(EffectTypes.REMOVE, EffectAction.setText "")] := rfl

/-- C6: when a patch list is present, the result is exactly the in-order
replay of the patch list over the queue-time snapshot of the host child
list — CREATE inserts the materialized new child before the snapshot child
at the position, UPDATE recurses through the driver merging its effects,
REMOVE deletes the snapshot child at the position — regardless of flags or
children, and the parent element is untouched (no pool write). -/
theorem c6_delta_replay {κ : Type} (el : ParentEl) (newVNode : VNode)
    (oldVNode : Option VNode) (ct : κ) (effs : List Effect) (drv : DriverFn)
    (ds : List (DeltaTypes × Nat)) (h : VNode.delta newVNode = some ds) :
    (useChildren [] el newVNode oldVNode ct effs (some drv)).effects =
      deltaReplaySpec drv el.childNodes (newChildrenList newVNode)
        (vcToList (oldChildrenOf oldVNode)) ds effs ∧
    (useChildren [] el newVNode oldVNode ct effs (some drv)).el = el := by
  have hd : dispatchPath newVNode oldVNode = RPath.delta := by
    unfold dispatchPath
    simp [h]
  rw [useChildren_nil_delta el newVNode oldVNode ct effs (some drv) hd]
  refine ⟨?_, rfl⟩
  show deltaRun (drvOf (some drv)) el.childNodes (newChildrenList newVNode)
    (vcToList (oldChildrenOf oldVNode)) ((VNode.delta newVNode).getD []) effs = _
  rw [h]
  exact deltaRun_eq_spec drv el.childNodes (newChildrenList newVNode)
    (vcToList (oldChildrenOf oldVNode)) ds effs

/-- C6 witness: the delta replay equation at a concrete patch list. -/
theorem c6_witness :
    (useChildren [] elEx nDeltaEx (some nDeltaEx) (0 : Nat) [] (some drvId)).effects =
      deltaReplaySpec drvId elEx.childNodes (newChildrenList nDeltaEx)
        (vcToList (oldChildrenOf (some nDeltaEx))) [(DeltaTypes.CREATE, 0)] [] ∧
    (useChildren [] elEx nDeltaEx (some nDeltaEx) (0 : Nat) [] (some drvId)).el = elEx :=
  c6_delta_replay elEx nDeltaEx (some nDeltaEx) (0 : Nat) [] drvId
    [(DeltaTypes.CREATE, 0)] rfl

/-- C7: on the generic unkeyed path, the queued effects are exactly: the
common-length prefix recursively reconciled through the driver in strictly
decreasing index order (a fold over the reversed index range, each call on
the snapshot host child at that index), then — if the new list is longer —
one CREATE append effect per extra new child in increasing index order, or —
if the old list is longer — one replay-resolved REMOVE effect per extra old
child in decreasing index order. -/
theorem c7_unkeyed_reverse_order {κ : Type} (el : ParentEl) (newVNode : VNode)
    (oldVNode : Option VNode) (ct : κ) (effs : List Effect) (drv : DriverFn)
    (h : dispatchPath newVNode oldVNode = RPath.unkeyed) :
    (useChildren [] el newVNode oldVNode ct effs (some drv)).effects =
      (let newCL := newChildrenList newVNode
       let oldCL := vcToList (oldChildrenOf oldVNode)
       let common := min oldCL.length newCL.length
       let recursed := ((List.range common).reverse).foldl
         (fun e i => drv (el.childNodes.get? i) (newCL.get? i) (oldCL.get? i) e) effs
       if oldCL.length < newCL.length then
         recursed ++ (List.range' common (newCL.length - common)).map
           (fun i => (EffectTypes.CREATE,
             EffectAction.appendNode (createElement (newCL.get? i))))
       else
         recursed ++ ((List.range' common (oldCL.length - common)).reverse).map
           (fun i => (EffectTypes.REMOVE, EffectAction.removeIdx i))) := by
  rw [useChildren_nil_unkeyed el newVNode oldVNode ct effs (some drv) h]
  show unkeyedPath drv el.childNodes (newChildrenList newVNode)
    (vcToList (oldChildrenOf oldVNode)) effs = _
  unfold unkeyedPath
  dsimp only
  rw [unkeyedCommon_eq_foldl]
  split_ifs with h1 h2
  · rw [appendPath_spec]
  · rw [unkeyedRemove_spec]
  · have hlen : (vcToList (oldChildrenOf oldVNode)).length -
        min (vcToList (oldChildrenOf oldVNode)).length
          (newChildrenList newVNode).length = 0 := by omega
    rw [hlen]
    simp

/-- C7 witness: old one text child, new two text children: the extra new
child is appended after the recursive prefix pass. -/
theorem c7_witness :
    (useChildren [] elEx unkeyedNewEx (some unkeyedOldEx) (0 : Nat) []
      (some drvId)).effects =
      [(EffectTypes.CREATE,
        EffectAction.appendNode (createElement (some (VNode.vtext "b"))))] :=
  c7_unkeyed_reverse_order elEx unkeyedNewEx (some unkeyedOldEx) (0 : Nat) [] drvId
    (by decide)

/-- C8: on the TEXT_CHILDREN path, old and new children are flattened to
plain strings (a list joined with no separator, a scalar string as is) and
exactly one REPLACE effect setting the host's text to the new string is
queued iff the two differ under exact string equality; a list of text
children flattens to their concatenation and a scalar flattens to itself. -/
theorem c8_text_children {κ : Type} (el : ParentEl) (newVNode : VNode)
    (oldVNode : Option VNode) (ct : κ) (effs : List Effect) (driver : Option DriverFn)
    (h : dispatchPath newVNode oldVNode = RPath.textChildren) :
    ((useChildren [] el newVNode oldVNode ct effs driver).effects =
      if flattenChildren (oldVNode.bind VNode.children) ≠
          flattenChildren (VNode.children newVNode) then
        effs ++ [(EffectTypes.REPLACE,
          EffectAction.setText ((flattenChildren (VNode.children newVNode)).getD ""))]
      else effs) ∧
    (∀ ss : List String,
      flattenChildren (some (VChildrenF.nodes (ss.map VNode.vtext))) =
        some (String.join ss)) ∧
    (∀ s : String, flattenChildren (some (VChildrenF.str s)) = some s) := by
  refine ⟨?_, ?_, ?_⟩
  · rw [useChildren_nil_text el newVNode oldVNode ct effs driver h]
    rfl
  · intro ss
    simp [flattenChildren, String.join, List.foldl_map, vnodeToString]
  · intro s
    rfl

/-- C8 witness: old scalar "x" vs new list flattening to "ab": one REPLACE
effect with the new string. -/
theorem c8_witness :
    (useChildren [] elEx textNewEx (some textOldEx) (0 : Nat) [] none).effects =
      (if flattenChildren ((some textOldEx).bind VNode.children) ≠
          flattenChildren (VNode.children textNewEx) then
        [] ++ [(EffectTypes.REPLACE,
          EffectAction.setText ((flattenChildren (VNode.children textNewEx)).getD ""))]
      else []) :=
  (c8_text_children elEx textNewEx (some textOldEx) (0 : Nat) [] none (by decide)).1

/-- C4: in the keyed trim loop, while both ranges are non-empty the four key
comparisons happen in the fixed order suffix, prefix, right move, left move:
a suffix or prefix match only advances cursors and queues nothing, a right or
left move queues exactly one CREATE-kind move effect whose node is the
existing host child at the moved old index, and the loop exits (returning the
cursors unchanged) when none of the four comparisons succeeds. -/
theorem c4_trim_tiebreak (elC : List DomNode) (oldC newC : List VNode) (fuel : Nat)
    (s : TrimState) (h1 : s.oldHead < s.oldStop) (h2 : s.newHead < s.newStop) :
    (keyAt oldC (s.oldStop - 1) = keyAt newC (s.newStop - 1) →
      trimLoop elC oldC newC (fuel + 1) s =
        trimLoop elC oldC newC fuel
          { s with oldStop := s.oldStop - 1, newStop := s.newStop - 1 }) ∧
    (keyAt oldC (s.oldStop - 1) ≠ keyAt newC (s.newStop - 1) →
      keyAt oldC s.oldHead = keyAt newC s.newHead →
      trimLoop elC oldC newC (fuel + 1) s =
        trimLoop elC oldC newC fuel
          { s with oldHead := s.oldHead + 1, newHead := s.newHead + 1 }) ∧
    (keyAt oldC (s.oldStop - 1) ≠ keyAt newC (s.newStop - 1) →
      keyAt oldC s.oldHead ≠ keyAt newC s.newHead →
      keyAt oldC s.oldHead = keyAt newC (s.newStop - 1) →
      trimLoop elC oldC newC (fuel + 1) s =
        trimLoop elC oldC newC fuel
          { s with oldHead := s.oldHead + 1, newStop := s.newStop - 1,
                   effects := s.effects ++
                     [(EffectTypes.CREATE,
                       EffectAction.insertAfterIdx (elC.get? s.oldHead)
                         (s.newStop - 1))] }) ∧
    (keyAt oldC (s.oldStop - 1) ≠ keyAt newC (s.newStop - 1) →
      keyAt oldC s.oldHead ≠ keyAt newC s.newHead →
      keyAt oldC s.oldHead ≠ keyAt newC (s.newStop - 1) →
      keyAt oldC (s.oldStop - 1) = keyAt newC s.newHead →
      trimLoop elC oldC newC (fuel + 1) s =
        trimLoop elC oldC newC fuel
          { s with oldStop := s.oldStop - 1, newHead := s.newHead + 1,
                   effects := s.effects ++
                     [(EffectTypes.CREATE,
                       EffectAction.insertBeforeIdx (elC.get? (s.oldStop - 1))
                         s.newHead)] }) ∧
    (keyAt oldC (s.oldStop - 1) ≠ keyAt newC (s.newStop - 1) →
      keyAt oldC s.oldHead ≠ keyAt newC s.newHead →
      keyAt oldC s.oldHead ≠ keyAt newC (s.newStop - 1) →
      keyAt oldC (s.oldStop - 1) ≠ keyAt newC s.newHead →
      trimLoop elC oldC newC (fuel + 1) s = s) := by
  refine ⟨?_, ?_, ?_, ?_, ?_⟩
  · intro hsuf
    rw [trimLoop, if_pos ⟨h1, h2⟩, if_pos hsuf]
  · intro hsuf hpre
    rw [trimLoop, if_pos ⟨h1, h2⟩, if_neg hsuf, if_pos hpre]
  · intro hsuf hpre hr
    rw [trimLoop, if_pos ⟨h1, h2⟩, if_neg hsuf, if_neg hpre, if_pos hr]
  · intro hsuf hpre hr hl
    rw [trimLoop, if_pos ⟨h1, h2⟩, if_neg hsuf, if_neg hpre, if_neg hr, if_pos hl]
  · intro hsuf hpre hr hl
    rw [trimLoop, if_pos ⟨h1, h2⟩, if_neg hsuf, if_neg hpre, if_neg hr, if_neg hl]

/-- C4 witness: a suffix key match advances the tail cursors and queues
nothing. -/
theorem c4_witness :
    trimLoop [] [kel "a"] [kel "a"] 1 ⟨0, 0, 1, 1, []⟩ =
      trimLoop [] [kel "a"] [kel "a"] 0 ⟨0, 0, 0, 0, []⟩ :=
  (c4_trim_tiebreak [] [kel "a"] [kel "a"] 0 ⟨0, 0, 1, 1, []⟩
    (by decide) (by decide)).1 rfl

/-- C1 counterexample: reconciling `(n, n)` does NOT always queue zero
effects. A node that carries a precomputed patch list replays it verbatim:
with `n = nDeltaEx` (delta = [(CREATE, 0)]) and old = new = n, one CREATE
effect is queued even though old and new are identical. -/
theorem c1_counterexample :
    (useChildren [] elEx nDeltaEx (some nDeltaEx) (0 : Nat) [] none).effects ≠ [] := by
  have he : (useChildren [] elEx nDeltaEx (some nDeltaEx) (0 : Nat) [] none).effects =
      [(EffectTypes.CREATE,
        EffectAction.insertBeforeRef (DomNode.created (some (VNode.vtext "x")))
          (some (DomNode.real 0)))] := rfl
  rw [he]
  exact List.cons_ne_nil _ _

/-- C1 (amended): reconciling `(n, n)` queues zero effects for every node
`n` that has no precomputed patch list, whose flag is not NO_CHILDREN, and
whose children are present, provided the recursion driver itself queues
nothing on structurally equal pairs. -/
theorem c1_idempotent_no_delta {κ : Type} (el : ParentEl) (n : VNode) (ct : κ)
    (effs : List Effect) (drv : DriverFn)
    (hdelta : VNode.delta n = none)
    (hflag : VNode.flag n ≠ some Flags.ELEMENT_NO_CHILDREN)
    (hch : childrenTruthy (VNode.children n) = true)
    (hdrv : ∀ c v e, drv c v v e = e) :
    (useChildren [] el n (some n) ct effs (some drv)).effects = effs := by
  cases hc : VNode.children n with
  | none =>
      rw [hc] at hch
      exact absurd hch (by simp [childrenTruthy])
  | some c =>
    have hold : oldChildrenOf (some n) = c := by
      simp [oldChildrenOf, hc]
    have hTruthy : vcTruthy c = true := by
      rw [hc] at hch
      exact hch
    have hnew : newChildrenList n = vcToList c := by
      simp [newChildrenList, hc]
    by_cases hlen : vcLength c = 0
    · have hd : dispatchPath n (some n) = RPath.appendOnly := by
        unfold dispatchPath
        simp [hdelta, hch, hflag, hold, hlen]
      rw [useChildren_nil_appendOnly el n (some n) ct effs (some drv) hd]
      show appendPath (newChildrenList n) 0 (newChildrenList n).length effs = effs
      rw [hnew]
      have hnil : vcToList c = [] := List.length_eq_zero.mp hlen
      rw [hnil]
      rfl
    · by_cases hk : VNode.flag n = some Flags.ELEMENT_KEYED_CHILDREN
      · have hd : dispatchPath n (some n) = RPath.keyed := by
          unfold dispatchPath
          simp [hdelta, hch, hflag, hold, hlen, hTruthy, hk]
        rw [useChildren_nil_keyed el n (some n) ct effs (some drv) hd]
        show (keyedPath el (vcToList (oldChildrenOf (some n)))
          (newChildrenList n) effs).2 = effs
        rw [hold, hnew]
        unfold keyedPath
        dsimp only
        rw [trimLoop_equal_lists el.childNodes (vcToList c)
          ((vcToList c).length + (vcToList c).length) (vcToList c).length effs
          (by omega)]
        rfl
      · by_cases htx : VNode.flag n = some Flags.ELEMENT_TEXT_CHILDREN
        · have hd : dispatchPath n (some n) = RPath.textChildren := by
            unfold dispatchPath
            simp [hdelta, hch, hflag, hold, hlen, hTruthy, hk, htx]
          rw [useChildren_nil_text el n (some n) ct effs (some drv) hd]
          show textPathRun ((some n).bind VNode.children) (VNode.children n) effs = effs
          simp [textPathRun, hc]
        · have hd : dispatchPath n (some n) = RPath.unkeyed := by
            unfold dispatchPath
            simp [hdelta, hch, hflag, hold, hlen, hTruthy, hk, htx]
          rw [useChildren_nil_unkeyed el n (some n) ct effs (some drv) hd]
          show unkeyedPath drv el.childNodes (newChildrenList n)
            (vcToList (oldChildrenOf (some n))) effs = effs
          rw [hold, hnew]
          unfold unkeyedPath
          dsimp only
          rw [unkeyedCommon_equal_lists drv hdrv]
          simp

/-- C1 witness: a plain unkeyed node with one text child, reconciled against
itself with the identity driver, queues zero effects. -/
theorem c1_witness :
    (useChildren [] elEx plainAEx (some plainAEx) (0 : Nat) [] (some drvId)).effects = [] :=
  c1_idempotent_no_delta elEx plainAEx (0 : Nat) [] drvId rfl (by decide) rfl
    (fun _ _ _ => rfl)

/-- C5: keyed removals store the removed host child into the object pool
under its key (a Map.set, overwriting any prior entry) and then queue its
REMOVE effect — both in branch [7] (`removeRemaining`) and branch [11]
(`cleanupRemoved`); keyed insertions consult the pool first — branch [6]
(`insertRemaining`) and branch [10] (the key-map miss step of `newWalk`)
queue the pooled node when one is cached under the key, calling the node
factory only otherwise; and concretely, a key removed by one pass is
recycled, not recreated, when re-inserted by a later pass. -/
theorem c5_pool_recycling :
    (∀ (elC : List DomNode) (oldC : List VNode) (n head : Nat) (pool : PoolMap)
        (effs : List Effect),
      removeRemaining elC oldC head n pool effs =
        (poolWritesApply pool (removalPairs elC oldC head n),
         effs ++ (List.range' head n).map (remEffOf elC))) ∧
    (∀ (elC : List DomNode) (km : KeyMap) (pool : PoolMap) (effs : List Effect),
      cleanupRemoved elC km pool effs =
        (poolWritesApply pool (km.map (fun kv => (kv.1, elC.get? kv.2))),
         effs ++ km.map (fun kv => remEffOf elC kv.2))) ∧
    (∀ (pool : PoolMap) (newC : List VNode) (n head : Nat) (effs : List Effect),
      insertRemaining pool newC head n effs =
        effs ++ (List.range' head n).map (insEffOf pool newC)) ∧
    (∀ (elC : List DomNode) (pool : PoolMap) (newC : List VNode) (head n : Nat)
        (km : KeyMap) (effs : List Effect),
      mapGet km (keyAt newC head) = none →
      newWalk elC pool newC head (n + 1) km effs =
        newWalk elC pool newC (head + 1) n km (effs ++ [insEffOf pool newC head])) ∧
    (∀ (pool : PoolMap) (newC : List VNode) (i : Nat) (nd : DomNode),
      (mapGet pool (keyAt newC i)).join = some nd →
      insEffOf pool newC i =
        (EffectTypes.CREATE, EffectAction.insertBeforeIdx (some nd) i)) ∧
    (el1Ex.pool = some [(some "k", some (DomNode.real 1))] ∧
      (useChildren [] el1Ex newPass2 (some newPass1) (0 : Nat) [] none).effects =
        [(EffectTypes.CREATE, EffectAction.insertBeforeIdx (some (DomNode.real 1)) 1)]) := by
  refine ⟨?_, ?_, ?_, ?_, ?_, rfl, rfl⟩
  · intro elC oldC n head pool effs
    exact removeRemaining_spec elC oldC n head pool effs
  · intro elC km pool effs
    exact cleanupRemoved_spec elC km pool effs
  · intro pool newC n head effs
    exact insertRemaining_spec pool newC n head effs
  · intro elC pool newC head n km effs hm
    exact newWalk_step_miss elC pool newC head n km effs hm
  · intro pool newC i nd hnd
    unfold insEffOf
    rw [hnd, Option.getD_some]

/-- C5 witness: the key-map miss step consults the pool and queues the
pool-or-factory insertion effect. -/
theorem c5_witness :
    newWalk [] [] [kel "k"] 0 (0 + 1) [] [] =
      newWalk [] [] [kel "k"] (0 + 1) 0 [] ([] ++ [insEffOf [] [kel "k"] 0]) :=
  c5_pool_recycling.2.2.2.1 [] [] [kel "k"] 0 0 [] [] rfl

/-- C9: with no downstream drivers, the returned record's el, newVNode,
oldVNode, commit and driver fields equal the corresponding arguments (the
el's identity and child list are untouched at queue time — only the hidden
pool field may change, on the keyed path), and the effects field is the
effect sequence passed in extended only by appended effects, provided the
recursion driver itself only appends. -/
theorem c9_frame {κ : Type} (el : ParentEl) (newVNode : VNode) (oldVNode : Option VNode)
    (ct : κ) (effs : List Effect) (driver : Option DriverFn)
    (hdrv : ∀ c n o e, ∃ t, drvOf driver c n o e = e ++ t) :
    ((useChildren [] el newVNode oldVNode ct effs driver).el).id = el.id ∧
    ((useChildren [] el newVNode oldVNode ct effs driver).el).childNodes = el.childNodes ∧
    (useChildren [] el newVNode oldVNode ct effs driver).newVNode = newVNode ∧
    (useChildren [] el newVNode oldVNode ct effs driver).oldVNode = oldVNode ∧
    (useChildren [] el newVNode oldVNode ct effs driver).commit = ct ∧
    (useChildren [] el newVNode oldVNode ct effs driver).driver = driver ∧
    ∃ t, (useChildren [] el newVNode oldVNode ct effs driver).effects = effs ++ t := by
  cases hd : dispatchPath newVNode oldVNode
  case delta =>
    rw [useChildren_nil_delta el newVNode oldVNode ct effs driver hd]
    refine ⟨rfl, rfl, rfl, rfl, rfl, rfl, ?_⟩
    show ∃ t, deltaRun (drvOf driver) el.childNodes (newChildrenList newVNode)
      (vcToList (oldChildrenOf oldVNode)) ((VNode.delta newVNode).getD []) effs =
        effs ++ t
    rw [deltaRun_eq_spec]
    exact deltaReplaySpec_effects_extend (drvOf driver) hdrv el.childNodes
      (newChildrenList newVNode) (vcToList (oldChildrenOf oldVNode))
      ((VNode.delta newVNode).getD []) effs
  case noChildren =>
    rw [useChildren_nil_noChildren el newVNode oldVNode ct effs driver hd]
    refine ⟨rfl, rfl, rfl, rfl, rfl, rfl, ?_⟩
    show ∃ t, noChildrenRun (oldChildrenOf oldVNode) effs = effs ++ t
    unfold noChildrenRun
    split_ifs
    · exact ⟨_, rfl⟩
    · exact ⟨[], by simp⟩
  case appendOnly =>
    rw [useChildren_nil_appendOnly el newVNode oldVNode ct effs driver hd]
    refine ⟨rfl, rfl, rfl, rfl, rfl, rfl, ?_⟩
    show ∃ t, appendPath (newChildrenList newVNode) 0
      (newChildrenList newVNode).length effs = effs ++ t
    rw [appendPath_spec]
    exact ⟨_, rfl⟩
  case keyed =>
    rw [useChildren_nil_keyed el newVNode oldVNode ct effs driver hd]
    obtain ⟨h1, h2⟩ := keyedPath_el_frame el (vcToList (oldChildrenOf oldVNode))
      (newChildrenList newVNode) effs
    exact ⟨h1, h2, rfl, rfl, rfl, rfl,
      keyedPath_effects_extend el (vcToList (oldChildrenOf oldVNode))
        (newChildrenList newVNode) effs⟩
  case textChildren =>
    rw [useChildren_nil_text el newVNode oldVNode ct effs driver hd]
    refine ⟨rfl, rfl, rfl, rfl, rfl, rfl, ?_⟩
    show ∃ t, textPathRun (oldVNode.bind VNode.children) (VNode.children newVNode) effs =
      effs ++ t
    unfold textPathRun
    dsimp only
    split_ifs
    · exact ⟨_, rfl⟩
    · exact ⟨[], by simp⟩
  case unkeyed =>
    rw [useChildren_nil_unkeyed el newVNode oldVNode ct effs driver hd]
    refine ⟨rfl, rfl, rfl, rfl, rfl, rfl, ?_⟩
    show ∃ t, unkeyedPath (drvOf driver) el.childNodes (newChildrenList newVNode)
      (vcToList (oldChildrenOf oldVNode)) effs = effs ++ t
    unfold unkeyedPath
    dsimp only
    obtain ⟨t0, ht0⟩ := unkeyedCommon_effects_extend (drvOf driver) hdrv el.childNodes
      (newChildrenList newVNode) (vcToList (oldChildrenOf oldVNode))
      (min (vcToList (oldChildrenOf oldVNode)).length (newChildrenList newVNode).length)
      effs
    split_ifs
    · rw [appendPath_spec, ht0]
      exact ⟨_, List.append_assoc _ _ _⟩
    · rw [unkeyedRemove_spec, ht0]
      exact ⟨_, List.append_assoc _ _ _⟩
    · rw [ht0]
      exact ⟨_, rfl⟩

/-- C9 witness: the frame conditions at a concrete unkeyed call with no
driver. -/
theorem c9_witness :
    ((useChildren [] elEx plainAEx (some plainAEx) (0 : Nat) [] none).el).id = elEx.id ∧
    ((useChildren [] elEx plainAEx (some plainAEx) (0 : Nat) [] none).el).childNodes =
      elEx.childNodes ∧
    (useChildren [] elEx plainAEx (some plainAEx) (0 : Nat) [] none).newVNode = plainAEx ∧
    (useChildren [] elEx plainAEx (some plainAEx) (0 : Nat) [] none).oldVNode =
      some plainAEx ∧
    (useChildren [] elEx plainAEx (some plainAEx) (0 : Nat) [] none).commit = 0 ∧
    (useChildren [] elEx plainAEx (some plainAEx) (0 : Nat) [] none).driver = none ∧
    ∃ t, (useChildren [] elEx plainAEx (some plainAEx) (0 : Nat) [] none).effects =
      [] ++ t :=
  c9_frame elEx plainAEx (some plainAEx) (0 : Nat) [] none
    (fun _ _ _ e => ⟨[], by simp [drvOf]⟩)

/-- C10: the keyed reconciler only ever grows or overwrites the pool — the
final pool is the initial (lazily created) pool with a sequence of Map.set
writes applied, never a delete; the insert-only branch leaves the pool
exactly as it was (so reusing a cached node keeps its entry); and concretely,
after a pooled node is reused for re-insertion the pool still maps its key to
the same node and hands it out again on a further pass. -/
theorem c10_pool_never_deleted :
    (∀ (el : ParentEl) (oldCL newCL : List VNode) (effs : List Effect),
      ∃ w, ((keyedPath el oldCL newCL effs).1).pool =
        some (poolWritesApply (el.pool.getD []) w)) ∧
    (∀ (elC : List DomNode) (pool0 : PoolMap) (oldCL newCL : List VNode) (s : TrimState),
      s.oldStop ≤ s.oldHead → (keyedBranches elC pool0 oldCL newCL s).1 = pool0) ∧
    ((useChildren [] el1Ex newPass2 (some newPass1) (0 : Nat) [] none).el.pool =
      some [(some "k", some (DomNode.real 1))] ∧
     (useChildren []
        ((useChildren [] el1Ex newPass2 (some newPass1) (0 : Nat) [] none).el)
        newPass2 (some newPass1) (0 : Nat) [] none).effects =
      [(EffectTypes.CREATE, EffectAction.insertBeforeIdx (some (DomNode.real 1)) 1)]) := by
  refine ⟨keyedPath_pool_writes, ?_, rfl, rfl⟩
  intro elC pool0 oldCL newCL s h
  unfold keyedBranches
  rw [if_pos h]

/-- C10 witness: an empty-range keyed branch keeps the pool unchanged. -/
theorem c10_witness :
    (keyedBranches [] [] [] [] ⟨0, 0, 0, 0, []⟩).1 = [] :=
  c10_pool_never_deleted.2.1 [] [] [] [] ⟨0, 0, 0, 0, []⟩ (Nat.le_refl 0)

end Million
